import Mathlib

set_option maxHeartbeats 1000000

namespace FirefoxBookmarkExport

/-! Shallow embedding of the core of fbx/__init__.py (firefox-bookmark-export):
the folder-path resolver (get_parent_path), the bookmark extractor
(get_bookmarks), the four renderers (write_bookmarks_html,
write_bookmarks_by_date_html, write_bookmarks_markdown,
write_bookmarks_markdown_by_date), and the aggregation store
(create_db_objects, insert_bookmarks, get_bookmarks_from_db).
The source database is modelled as a list of rows; SQL point queries become
list filters; a fatal Python AssertionError or uncaught exception is
modelled as the value none. -/

/-- Row of the moz_bookmarks table as consulted by the folder-path walk:
the columns id, parent, title used by the SELECT inside get_parent_path. -/
structure MozRow where
  id : Int
  parent : Int
  title : String
deriving DecidableEq

/-- The moz_bookmarks table (folder rows), as a list of rows. -/
abbrev MozDb := List MozRow

/-- Result set of SELECT parent, title FROM moz_bookmarks WHERE id = i. -/
def lookupRows (db : MozDb) (i : Int) : List MozRow :=
  db.filter (fun r => r.id == i)

/-- The while-loop of get_parent_path.  The Python depth counter starts at 0
and the guard fires when it exceeds 99, i.e. on the loop entry after 99
completed lookups, so the loop is started with fuel 99 and the guard fires
at fuel 0 with the current id still positive.  A lookup returning zero or
several rows fails the assert len(rows) == 1 and kills the run: modelled
as none. -/
def gppLoop (db : MozDb) : Nat → Int → String → Option String
  | 0, parent_id, parent_path =>
    if parent_id > 0 then some ("/(ERROR)" ++ parent_path) else some parent_path
  | fuel + 1, parent_id, parent_path =>
    if parent_id > 0 then
      match lookupRows db parent_id with
      | [row] =>
          gppLoop db fuel row.parent
            (if row.parent > 0 then "/" ++ row.title ++ parent_path else parent_path)
      | _ => none
    else some parent_path

/-- get_parent_path (fbx/__init__.py, lines 489-517): walk the folder
parent chain from bookmark_parent_id up to the root sentinel id 0,
prepending one /title per visited node whose own parent is positive;
at depth over 99 return the accumulated path behind the marker /(ERROR). -/
def get_parent_path (db : MozDb) (bookmark_parent_id : Int) : Option String :=
  gppLoop db 99 bookmark_parent_id "/"

/-- The rows visited by the first fuel hops of the walk when every visited
id is positive (including the id left after the last hop) and every lookup
returns exactly one row.  This is the situation in which the walk from i
cannot finish within fuel hops. -/
def chainPos (db : MozDb) : Nat → Int → Option (List MozRow)
  | 0, i => if i > 0 then some [] else none
  | fuel + 1, i =>
    if i > 0 then
      match lookupRows db i with
      | [row] => (chainPos db fuel row.parent).map (fun rs => row :: rs)
      | _ => none
    else none

/-- Titles collected by a walk from i that terminates at the sentinel within
fuel hops with every lookup unique: listed from the outermost ancestor whose
parent is positive down to the node i itself.  The topmost node (the one
whose parent is the sentinel) contributes no title, exactly as in the code. -/
def resolveChain (db : MozDb) : Nat → Int → Option (List String)
  | 0, i => if i > 0 then none else some []
  | fuel + 1, i =>
    if i > 0 then
      match lookupRows db i with
      | [row] =>
          (resolveChain db fuel row.parent).map
            (fun ts => if row.parent > 0 then ts ++ [row.title] else ts)
      | _ => none
    else some []

/-- Concatenation of one /title piece per chain element, leftmost first. -/
def joinParts : List String → String
  | [] => ""
  | t :: ts => "/" ++ t ++ joinParts ts

/-! Character-level well-formedness of the produced paths. -/

/-- Number of slash-delimited nonempty segments of a character list: counts
the maximal runs of characters other than the slash.  The flag records
whether scanning is currently inside such a run. -/
def segCountAux : Bool → List Char → Nat
  | _, [] => 0
  | inSeg, c :: cs =>
    if c = '/' then segCountAux false cs
    else (if inSeg then 0 else 1) + segCountAux true cs

/-- Segment count of a string, for the slash-delimited paths produced by
get_parent_path. -/
def segCount (s : String) : Nat := segCountAux false s.data

/-- True when the character list has no two adjacent slashes, i.e. the
string it spells contains no embedded double slash. -/
def noDS : List Char → Bool
  | c1 :: c2 :: cs => ((c1 != '/') || (c2 != '/')) && noDS (c2 :: cs)
  | _ => true

/-- Character spelling of the path built from a title chain: one slash
before each title, and one final closing slash. -/
def charForm : List String → List Char
  | [] => ['/']
  | t :: ts => '/' :: (t.data ++ charForm ts)

/-! The bookmark extractor. -/

/-- Bookmark (fbx/__init__.py, class Bookmark): one retained record. -/
structure Bookmark where
  title : String
  url : String
  parent_path : String
  when_added : String
  host_name : String
  asof_dt : String
deriving DecidableEq

/-- One row of the extraction query joining moz_bookmarks with moz_places:
SELECT b.title, p.url, b.parent, b.dateAdded.  The title column is
nullable. -/
structure PlaceRow where
  title : Option String
  url : String
  parent : Int
  dateAdded : Int
deriving DecidableEq

/-- Python str() on a nullable text column: str(None) is the four-character
string "None", never the value None itself. -/
def pyStr : Option String → String
  | none => "None"
  | some s => s

/-- Boolean prefix test on character lists. -/
def listPrefix : List Char → List Char → Bool
  | [], _ => true
  | _ :: _, [] => false
  | p :: ps, c :: cs => p == c && listPrefix ps cs

/-- Python str.startswith. -/
def pyStartswith (s pre : String) : Bool := listPrefix pre.data s.data

/-- The diagnostic printed for a skipped row. -/
def skipMsg (url : String) : String := "SKIP NON-HTTP URL: '" ++ url ++ "'"

/-- get_bookmarks (fbx/__init__.py, lines 532-599): iterate the joined rows;
skip a row (emitting a diagnostic) when its url does not start with "http";
otherwise build a Bookmark from the row, the resolved folder path, the
formatted timestamp and the caller-supplied host name and as-of date.
The source applies str() to the title column before its None test, so that
test can never fire: a NULL title becomes the string "None" and no
parenthesized-url fallback happens (see claim C4).  The timestamp
normalization from_moz_date is local-time dependent and is abstracted as
the parameter fmt.  Returns the diagnostics and the retained records;
none models a fatal AssertionError inside get_parent_path. -/
def get_bookmarks (fdb : MozDb) (fmt : Int → String) (host_name asof : String) :
    List PlaceRow → Option (List String × List Bookmark)
  | [] => some ([], [])
  | row :: rest =>
    if pyStartswith row.url "http" = false then
      (get_bookmarks fdb fmt host_name asof rest).map
        (fun p => (skipMsg row.url :: p.1, p.2))
    else
      match get_parent_path fdb row.parent with
      | none => none
      | some pp =>
          (get_bookmarks fdb fmt host_name asof rest).map
            (fun p => (p.1,
              { title := pyStr row.title, url := row.url, parent_path := pp,
                when_added := fmt row.dateAdded, host_name := host_name,
                asof_dt := asof } :: p.2))

/-! Stable sorting, modelling Python list.sort. -/

/-- Insert x before the first element y with le x y and after all earlier
elements; among elements comparing equal to x, x lands first. -/
def insertLe {α : Type} (le : α → α → Bool) (x : α) : List α → List α
  | [] => [x]
  | y :: ys => if le x y then x :: y :: ys else y :: insertLe le x ys

/-- Stable insertion sort over a boolean comparison, the model of one
Python list.sort(key=...) call: stability holds because an element is
inserted in front of every element of the already-sorted tail that
compares equal to it, all of which came later in the input. -/
def sortLe {α : Type} (le : α → α → Bool) : List α → List α
  | [] => []
  | x :: xs => insertLe le x (sortLe le xs)

/-- Strictly-below relation induced by a boolean comparison. -/
def ltOf {α : Type} (le : α → α → Bool) (a b : α) : Prop :=
  le a b = true ∧ le b a = false

/-- Compares-equal relation induced by a boolean comparison. -/
def eqvOf {α : Type} (le : α → α → Bool) (a b : α) : Prop :=
  le a b = true ∧ le b a = true

/-- Lexicographic combination: the key le dominates and the previous
order r breaks ties among le-equal elements.  This is the order a stable
sort by le imposes on an r-ordered input. -/
def lexComb {α : Type} (le : α → α → Bool) (r : α → α → Prop) (a b : α) : Prop :=
  ltOf le a b ∨ (eqvOf le a b ∧ r a b)

/-- Lexicographic comparison of character lists by code point: the order
Python uses to compare strings. -/
def lexLeChars : List Char → List Char → Bool
  | [], _ => true
  | _ :: _, [] => false
  | a :: as, b :: bs => if a = b then lexLeChars as bs else decide (a < b)

/-- The sort keys of the renderers are built with Python str.lower,
whose Unicode lowercase table is external data this development does not
re-encode; the renderers therefore take the induced key function
lowerKey : String → List Char (the composition of str.lower with reading
the characters) as an explicit parameter, and every theorem below is
proved for an arbitrary such function, hence for the actual table.
asciiLowerKey is the restriction of that key function to ASCII strings,
on which Python str.lower agrees with characterwise ASCII lowercasing:
it instantiates the parameter in the concrete witnesses, whose inputs
are ASCII. -/
def asciiLowerKey (s : String) : List Char := s.data.map Char.toLower

/-- Comparison of two values through a character-list key. -/
def leByKey {α : Type} (k : α → List Char) (a b : α) : Bool := lexLeChars (k a) (k b)

/-! The renderers. -/

/-- Name of the application, module constant app_name. -/
def app_name : String := "fbx.py"

/-- Module constant holding the version string. -/
def fbxVersion : String := "2024.05.1"

/-- Module constant app_title. -/
def app_title : String := app_name ++ " (v" ++ fbxVersion ++ ")"

/-- limited (lines 305-310): return the value unchanged when its length is
at most 180 characters, otherwise its first 177 characters plus "...". -/
def limited (value : String) : String :=
  if value.length ≤ 180 then value else String.mk (value.data.take 177) ++ "..."

/-- htm_txt (lines 313-316): escape the ampersand first, then both angle
brackets.  The three sequential str.replace calls touch pairwise disjoint
characters and none of the inserted entities contains an angle bracket, so
they equal one characterwise pass. -/
def htm_txt (text : String) : String :=
  String.mk (text.data.flatMap (fun c =>
    if c = '&' then "&amp;".data
    else if c = '<' then "&lt;".data
    else if c = '>' then "&gt;".data
    else [c]))

/-- htm_url (lines 319-320): replace each ampersand of the url by %26. -/
def htm_url (url : String) : String :=
  String.mk (url.data.flatMap (fun c => if c = '&' then "%26".data else [c]))

/-- Lowercase hexadecimal digit for an escape sequence. -/
def hexDigit (n : Nat) : Char :=
  if n < 10 then Char.ofNat (48 + n) else Char.ofNat (87 + n)

/-- Fixed-width lowercase hexadecimal spelling. -/
def hexFixed : Nat → Nat → List Char
  | 0, _ => []
  | w + 1, n => hexFixed w (n / 16) ++ [hexDigit (n % 16)]

/-- Escaping of one character by Python ascii() when the chosen repr quote
is q: backslash and the quote are backslash-escaped, newline, carriage
return and tab use their letter escapes, other control characters and all
non-ASCII characters get numeric escapes, and the remaining printable
ASCII characters stand for themselves. -/
def asciiEscChar (q : Char) (c : Char) : List Char :=
  if c = '\\' then ['\\', '\\']
  else if c = q then ['\\', q]
  else if c = '\n' then ['\\', 'n']
  else if c = '\r' then ['\\', 'r']
  else if c = '\t' then ['\\', 't']
  else if c.toNat < 32 ∨ c.toNat = 127 then '\\' :: 'x' :: hexFixed 2 c.toNat
  else if c.toNat < 127 then [c]
  else if c.toNat ≤ 255 then '\\' :: 'x' :: hexFixed 2 c.toNat
  else if c.toNat ≤ 65535 then '\\' :: 'u' :: hexFixed 4 c.toNat
  else '\\' :: 'U' :: hexFixed 8 c.toNat

/-- Python ascii() on a string: the repr surrounded by quote characters,
with every character escaped by asciiEscChar.  The quote is an apostrophe
unless the string contains an apostrophe and no double quote. -/
def pyAscii (s : String) : String :=
  let q : Char :=
    if s.data.any (fun c => c == '\'') && !(s.data.any (fun c => c == '"')) then '"'
    else '\''
  String.mk (q :: s.data.flatMap (asciiEscChar q) ++ [q])

/-- Python str.strip applied with the apostrophe as the character set:
drop leading and trailing apostrophes. -/
def pyStrip (s : String) : String :=
  String.mk (((s.data.dropWhile (fun c => c = '\'')).reverse.dropWhile
    (fun c => c = '\'')).reverse)

/-- Title text as computed by both HTML renderers (line 347): the ascii()
repr of the stored title, truncated by limited, then HTML-escaped; the
truncation happens before the escaping. -/
def renderedTitleHtml (title : String) : String := htm_txt (limited (pyAscii title))

/-- Title text as computed by both Markdown renderers (line 435): like the
HTML pipeline but with surrounding apostrophes stripped after truncation,
then passed through the same htm_txt escaping. -/
def renderedTitleMd (title : String) : String := htm_txt (pyStrip (limited (pyAscii title)))

/-- The three stable in-place sorts of the location-ordered renderers
(lines 327-329 and 421-423): by lowercased title, then lowercased folder
path, then lowercased host name, so the host name has top priority;
lowerKey is the key function Python str.lower induces. -/
def sortByLocation (lowerKey : String → List Char) (bmks : List Bookmark) :
    List Bookmark :=
  sortLe (leByKey (fun b => lowerKey b.host_name))
    (sortLe (leByKey (fun b => lowerKey b.parent_path))
      (sortLe (leByKey (fun b => lowerKey b.title)) bmks))

/-- The three stable in-place sorts of write_bookmarks_by_date_html
(lines 373-375): by lowercased host name, then url, then date added in
reverse; Python reverse=True keeps equal elements in order, which a
stable sort by the flipped comparison reproduces. -/
def sortByDateHtml (lowerKey : String → List Char) (bmks : List Bookmark) :
    List Bookmark :=
  sortLe (fun a b => lexLeChars b.when_added.data a.when_added.data)
    (sortLe (leByKey (fun b => b.url.data))
      (sortLe (leByKey (fun b => lowerKey b.host_name)) bmks))

/-- The three stable in-place sorts of write_bookmarks_markdown_by_date
(lines 456-458): by lowercased host name, then url, then date added
ascending. -/
def sortByDateMd (lowerKey : String → List Char) (bmks : List Bookmark) :
    List Bookmark :=
  sortLe (leByKey (fun b => b.when_added.data))
    (sortLe (leByKey (fun b => b.url.data))
      (sortLe (leByKey (fun b => lowerKey b.host_name)) bmks))

/-- The host-change section header written by write_bookmarks_html. -/
def htmlHostHeader (bmk : Bookmark) : String :=
  "<div class=\"asof\">On host '" ++ bmk.host_name ++ "' as of "
    ++ bmk.asof_dt ++ "</div>\n"

/-- One list item of the HTML outputs: the dedented li template, indented
by eight spaces, with title, path, url and date substituted.  host_str is
the extra suffix after the date used by the by-date renderer; the
location-ordered renderer has no such slot, which passing the empty
string reproduces. -/
def htmlEntry (host_str : String) (bmk : Bookmark) : String :=
  "\n        <li>\n            <p>\n            <span class=\"bookmark-title\">"
    ++ renderedTitleHtml bmk.title
    ++ "</span><br />\n            <span class=\"bookmark-path\">"
    ++ htm_txt bmk.parent_path
    ++ "</span><br />\n            <a href=\""
    ++ htm_url bmk.url ++ "\">" ++ htm_url bmk.url
    ++ "</a><br />\n            <span class=\"added-dt\">Added "
    ++ bmk.when_added ++ host_str
    ++ "</span>\n            </p>\n        </li>\n"

/-- The per-bookmark pieces written by the loop of write_bookmarks_html
(lines 334-365): for each record an optional host-change header followed
by its list item.  last_host starts as the empty string in the caller.
The asserts on bmk.host_name and bmk.asof_dt kill the run when either is
empty (Python truthiness): modelled as none. -/
def htmlEntries : String → List Bookmark → Option (List (Option String × String))
  | _, [] => some []
  | last_host, bmk :: rest =>
    if bmk.host_name = "" then none
    else if bmk.asof_dt = "" then none
    else
      (htmlEntries (if bmk.host_name ≠ last_host then bmk.host_name else last_host)
          rest).map
        (fun es =>
          ((if bmk.host_name ≠ last_host then some (htmlHostHeader bmk) else none),
            htmlEntry "" bmk) :: es)

/-- The host-change header written by write_bookmarks_markdown. -/
def mdHostHeader (bmk : Bookmark) : String :=
  "On host **" ++ bmk.host_name ++ "** as of **" ++ bmk.asof_dt ++ "**\n\n"

/-- One entry of the location-ordered Markdown output (lines 437-441). -/
def mdEntry (bmk : Bookmark) : String :=
  "[" ++ renderedTitleMd bmk.title ++ "](" ++ htm_url bmk.url ++ ")\nAdded: `"
    ++ bmk.when_added ++ "`\nFolder: `" ++ htm_txt bmk.parent_path ++ "`\n\n"

/-- The per-bookmark pieces written by the loop of write_bookmarks_markdown
(lines 428-441), with the same host-change header logic as the HTML
renderer and no asserts. -/
def mdEntries : String → List Bookmark → List (Option String × String)
  | _, [] => []
  | last_host, bmk :: rest =>
    ((if bmk.host_name ≠ last_host then some (mdHostHeader bmk) else none),
      mdEntry bmk)
      :: mdEntries (if bmk.host_name ≠ last_host then bmk.host_name else last_host) rest

/-- Reference description of the header pattern: one flag per record, true
exactly when the record's host name differs from the previous record's
host name, the first record being compared against prev. -/
def hostChanges : String → List Bookmark → List Bool
  | _, [] => []
  | prev, bmk :: rest => decide (bmk.host_name ≠ prev) :: hostChanges bmk.host_name rest

/-- html_style (lines 231-264): the CSS block, with its eight-space base
indentation, the leading newline removed and trailing whitespace
stripped. -/
def html_style : String :=
  "        body \x7b\n            background-color: oldlace;\n            font-family: 'Segoe UI', Tahoma, Geneva, Verdana, sans-serif;\n            padding: 1rem 4rem;\n        \x7d\n        a:link, a:visited \x7b\n            color: #00248F;\n            text-decoration: none;\n        \x7d\n        :link:hover,:visited:hover \x7b\n            color: #B32400;\n            text-decoration: underline;\n        \x7d\n        .bookmark-path \x7b color: gray; \x7d\n        .bookmark-title \x7b color: black; \x7d\n        .added-dt \x7b\n            color: darkslateblue;\n            font-size: 12px;\n        \x7d\n        .asof \x7b\n            color: brown;\n            font-size: 18px;\n            font-weight: bold;\n            margin-top: 2rem;\n        \x7d\n        #footer \x7b\n            border-top: 1px solid black;\n            font-size: x-small;\n            margin-top: 2rem;\n        \x7d"

/-- html_head (lines 267-289): the dedented document head with generator,
title and style substituted and surrounding newlines stripped. -/
def html_head (title : String) : String :=
  "<!DOCTYPE html>\n<html lang=\"en\">\n<head>\n    <meta name=\"generator\" content=\""
    ++ app_name
    ++ "\">\n    <meta http-equiv=\"Content-Type\" content=\"text/html; charset=utf-8\">\n    <title>"
    ++ title ++ "</title>\n    <style>\n" ++ html_style
    ++ "\n    </style>\n    <base target=\"_blank\">\n</head>\n<body>\n<h1>"
    ++ title ++ "</h1>\n<ul>"

/-- html_tail (lines 292-302), with the global run timestamp passed in as
runDtStr. -/
def html_tail (runDtStr : String) : String :=
  "\n</ul>\n<div id=\"footer\">\n  Created " ++ runDtStr ++ " by " ++ app_title
    ++ ".\n</div>\n</body>\n</html>\n"

/-- write_bookmarks_html (lines 323-366).  The source sorts the caller's
list in place with three stable sorts and then writes the file; modelled
as returning the final state of the caller's list and the text written
(none when an assert fires).  The global run_dt is passed as runDtStr. -/
def write_bookmarks_html (lowerKey : String → List Char) (runDtStr : String)
    (bmks : List Bookmark) : List Bookmark × Option String :=
  (sortByLocation lowerKey bmks,
    (htmlEntries "" (sortByLocation lowerKey bmks)).map (fun es =>
      html_head "Bookmarks"
        ++ String.join (es.map (fun p => p.1.getD "" ++ p.2))
        ++ html_tail runDtStr))

/-- The as-of banner of write_bookmarks_by_date_html (lines 380-387),
computed on the already sorted list. -/
def bydateBanner (n_hosts : Nat) (bmks : List Bookmark) : String :=
  if n_hosts > 1 then
    "<div class=\"asof\">\nCombined bookmarks from multiple hosts.\n</div>\n"
  else
    match bmks with
    | [] => ""
    | b :: _ =>
        "<div class=\"asof\">On host " ++ b.host_name ++ " as of "
          ++ b.asof_dt ++ "</div>\n"

/-- write_bookmarks_by_date_html (lines 369-415): re-sort the caller's
list in place, write a banner, then one list item per record, suffixing
each date with the record's host when more than one host is present. -/
def write_bookmarks_by_date_html (lowerKey : String → List Char)
    (runDtStr : String) (n_hosts : Nat)
    (bmks : List Bookmark) : List Bookmark × String :=
  (sortByDateHtml lowerKey bmks,
    html_head "Bookmarks by Date Added"
      ++ bydateBanner n_hosts (sortByDateHtml lowerKey bmks)
      ++ String.join ((sortByDateHtml lowerKey bmks).map (fun b =>
          htmlEntry
            (if n_hosts > 1 then "&nbsp;&nbsp;&nbsp;(" ++ b.host_name ++ ")" else "")
            b))
      ++ html_tail runDtStr)

/-- write_bookmarks_markdown (lines 418-447): same three in-place sorts
and host-change headers as the HTML renderer, Markdown text. -/
def write_bookmarks_markdown (lowerKey : String → List Char)
    (runDtStr : String) (bmks : List Bookmark) :
    List Bookmark × String :=
  (sortByLocation lowerKey bmks,
    "# Bookmarks\n\n"
      ++ String.join ((mdEntries "" (sortByLocation lowerKey bmks)).map
          (fun p => p.1.getD "" ++ p.2))
      ++ "---\n\nCreated " ++ runDtStr ++ " by " ++ app_title)

/-- One entry of the by-date Markdown output (lines 476-480). -/
def mdBydateEntry (host_str : String) (bmk : Bookmark) : String :=
  "[" ++ renderedTitleMd bmk.title ++ "](" ++ htm_url bmk.url ++ ")\nAdded: `"
    ++ bmk.when_added ++ "`\nFolder: `" ++ htm_txt bmk.parent_path ++ "`\n"
    ++ host_str ++ "\n"

/-- write_bookmarks_markdown_by_date (lines 450-486): re-sort the caller's
list in place ascending by date added, write a banner line, then one
entry per record with a host line when more than one host is present. -/
def write_bookmarks_markdown_by_date (lowerKey : String → List Char)
    (runDtStr : String) (n_hosts : Nat)
    (bmks : List Bookmark) : List Bookmark × String :=
  (sortByDateMd lowerKey bmks,
    "# Bookmarks by Date Added\n\n"
      ++ (if n_hosts > 1 then "(Combined bookmarks from multiple hosts.)\n\n"
          else
            match sortByDateMd lowerKey bmks with
            | [] => ""
            | b :: _ =>
                "On host **" ++ b.host_name ++ "** as of **" ++ b.asof_dt ++ "**.\n\n")
      ++ String.join ((sortByDateMd lowerKey bmks).map (fun b =>
          mdBydateEntry
            (if n_hosts > 1 then "Host: `" ++ b.host_name ++ "`\n" else "") b))
      ++ "---\n\nCreated " ++ runDtStr ++ " by " ++ app_title)

/-! The aggregation store.  SQLite TEXT comparison (the WHERE host_name = ?
probe and the UNIQUE constraint on hosts.host_name) uses the default BINARY
collation, i.e. exact byte equality of the UTF-8 encodings, which equals
exact string equality here; ORDER BY on TEXT is the corresponding byte
order, which on UTF-8 equals code-point order. -/

/-- Row of the hosts table created by create_db_objects:
hosts(id, host_name UNIQUE, source, created, app_name, app_version). -/
structure HostRow where
  id : Nat
  host_name : String
  source : String
  created : String
  app_name : String
  app_version : String
deriving DecidableEq

/-- Row of the bookmarks table created by create_db_objects:
bookmarks(id, host_id, title, url, parent_path, when_added). -/
structure BmkRow where
  id : Nat
  host_id : Nat
  title : String
  url : String
  parent_path : String
  when_added : String
deriving DecidableEq

/-- State of an aggregation database: the two tables plus the next rowid
each table would assign (SQLite INTEGER PRIMARY KEY assignment for the
append-only usage made of it here). -/
structure AggDb where
  hosts : List HostRow
  bookmarks : List BmkRow
  nextHostId : Nat
  nextBmkId : Nat
deriving DecidableEq

/-- A fresh aggregation database directly after create_db_objects
(lines 663-727) ran on a new file: both tables exist and are empty and
rowids start at 1.  The view view_bookmarks is a derived join realized
below by viewRows. -/
def emptyAggDb : AggDb :=
  { hosts := [], bookmarks := [], nextHostId := 1, nextBmkId := 1 }

/-- Append the bookmark rows for the given host id, one INSERT per record,
assigning consecutive rowids (the loop of insert_bookmarks,
lines 762-772). -/
def insertBmkRows (host_id : Nat) : AggDb → List Bookmark → AggDb
  | db, [] => db
  | db, bmk :: rest =>
      insertBmkRows host_id
        { db with
          bookmarks := db.bookmarks ++
            [{ id := db.nextBmkId, host_id := host_id, title := bmk.title,
               url := bmk.url, parent_path := bmk.parent_path,
               when_added := bmk.when_added }],
          nextBmkId := db.nextBmkId + 1 }
        rest

/-- insert_bookmarks (lines 730-776): first the assert on opts.host_name
(line 735), which by Python truthiness raises AssertionError on an empty
host name — modelled as none; then probe the hosts table for an exact
match on host_name; on a hit return False with no mutation; otherwise
insert the host row, remember its generated id, insert one bookmarks row
per record, and return True.  opts supplies host_name and the source
path; created is the formatted global run timestamp. -/
def insert_bookmarks (db : AggDb) (host_name source created : String)
    (bookmarks : List Bookmark) : Option (AggDb × Bool) :=
  if host_name = "" then none
  else if db.hosts.any (fun h => h.host_name == host_name) then
    some (db, false)
  else
    let host_id := db.nextHostId
    some (insertBmkRows host_id
      { db with
        hosts := db.hosts ++
          [{ id := host_id, host_name := host_name, source := source,
             created := created, app_name := app_name,
             app_version := fbxVersion }],
        nextHostId := db.nextHostId + 1 }
      bookmarks,
      true)

/-- The out_db branch of main (lines 813-833): the process result is 0
when insert_bookmarks accepted the data and 1 when it rejected it, which
the callers (tests, console entry) treat as the exit code; an uncaught
AssertionError inside insert_bookmarks (none) kills the process before
any return. -/
def main_outdb (db : AggDb) (host_name source created : String)
    (bookmarks : List Bookmark) : Option (AggDb × Nat) :=
  (insert_bookmarks db host_name source created bookmarks).map
    (fun r => (r.1, if r.2 then 0 else 1))

/-- The rows of the view view_bookmarks: every bookmarks row joined with
the hosts row owning it, carrying (title, url, parent_path, when_added,
host_name, created). -/
def viewRows (db : AggDb) : List Bookmark :=
  db.bookmarks.flatMap (fun b =>
    (db.hosts.filter (fun h => h.id == b.host_id)).map (fun h =>
      { title := b.title, url := b.url, parent_path := b.parent_path,
        when_added := b.when_added, host_name := h.host_name,
        asof_dt := h.created }))

/-- get_bookmarks_from_db (lines 613-644): count the hosts rows, read the
join view ordered by (parent_path, title) — BINARY collation, modelled by
the stable sort under the code-point pair order — and rebuild Bookmark
values whose host name and as-of timestamp come from the joined host
row. -/
def get_bookmarks_from_db (db : AggDb) : Nat × List Bookmark :=
  (db.hosts.length,
    sortLe
      (fun a b : Bookmark =>
        if a.parent_path = b.parent_path then lexLeChars a.title.data b.title.data
        else lexLeChars a.parent_path.data b.parent_path.data)
      (viewRows db))

/-- Printable plain ASCII character that Python ascii() passes through
unchanged inside an apostrophe-quoted repr: at least the space, below
DEL, and neither the apostrophe nor the backslash. -/
def plainChar (c : Char) : Prop :=
  32 ≤ c.toNat ∧ c.toNat < 127 ∧ c ≠ '\'' ∧ c ≠ '\\'

instance (c : Char) : Decidable (plainChar c) :=
  inferInstanceAs (Decidable (32 ≤ c.toNat ∧ c.toNat < 127 ∧ c ≠ '\'' ∧ c ≠ '\\'))

/-- The record content compared by the round-trip property: every field
of a Bookmark except the as-of date. -/
def bmkTuple (b : Bookmark) : String × String × String × String × String :=
  (b.title, b.url, b.parent_path, b.when_added, b.host_name)

/-- The bookmarks rows produced by the insert loop for one host: one row
per record, consecutive rowids from n. -/
def bmkRowsFrom (host_id : Nat) : Nat → List Bookmark → List BmkRow
  | _, [] => []
  | n, bmk :: rest =>
      { id := n, host_id := host_id, title := bmk.title, url := bmk.url,
        parent_path := bmk.parent_path, when_added := bmk.when_added }
        :: bmkRowsFrom host_id (n + 1) rest

/-- The total preorder the location-ordered renderers impose: host name
first (case-insensitively, through the lowercase key function lowerKey of
Python str.lower), then folder path, then title; a later key decides
only between records whose earlier keys are equal. -/
def locationOrder (lowerKey : String → List Char) (a b : Bookmark) : Prop :=
  lexLeChars (lowerKey a.host_name) (lowerKey b.host_name) = true ∧
    (lowerKey a.host_name = lowerKey b.host_name →
      (lexLeChars (lowerKey a.parent_path) (lowerKey b.parent_path) = true ∧
        (lowerKey a.parent_path = lowerKey b.parent_path →
          lexLeChars (lowerKey a.title) (lowerKey b.title) = true)))

theorem joinParts_append (ts : List String) (t : String) :
    joinParts (ts ++ [t]) = joinParts ts ++ ("/" ++ t) := by
  induction ts with
  | nil => simp [joinParts]
  | cons a as ih => simp [joinParts, ih, String.append_assoc]

theorem chainPos_pos {db : MozDb} {fuel : Nat} {i : Int} {rs : List MozRow}
    (h : chainPos db fuel i = some rs) : i > 0 := by
  cases fuel with
  | zero =>
      by_cases hi : i > 0
      · exact hi
      · simp [chainPos, hi] at h
  | succ fuel =>
      by_cases hi : i > 0
      · exact hi
      · simp [chainPos, hi] at h

theorem gppLoop_of_chainPos (db : MozDb) :
    ∀ (fuel : Nat) (i : Int) (path : String) (rs : List MozRow),
      chainPos db fuel i = some rs →
      gppLoop db fuel i path =
        some ("/(ERROR)" ++ (joinParts (rs.reverse.map MozRow.title) ++ path)) := by
  intro fuel
  induction fuel with
  | zero =>
      intro i path rs h
      have hi : i > 0 := chainPos_pos h
      simp [chainPos, hi] at h
      subst h
      simp [gppLoop, hi, joinParts]
  | succ fuel ih =>
      intro i path rs h
      have hi : i > 0 := chainPos_pos h
      simp only [chainPos, if_pos hi] at h
      cases hrows : lookupRows db i with
      | nil => rw [hrows] at h; simp at h
      | cons r rest =>
        cases rest with
        | cons r2 rest2 => rw [hrows] at h; simp at h
        | nil =>
          rw [hrows] at h
          simp only [Option.map_eq_some'] at h
          obtain ⟨rs', hrs', hcons⟩ := h
          have hp : r.parent > 0 := chainPos_pos hrs'
          have := ih r.parent ("/" ++ r.title ++ path) rs' hrs'
          simp only [gppLoop, if_pos hi, hrows, if_pos hp]
          rw [this, ← hcons]
          simp [joinParts_append, String.append_assoc]

theorem gppLoop_of_resolveChain (db : MozDb) :
    ∀ (fuel : Nat) (i : Int) (path : String) (ts : List String),
      resolveChain db fuel i = some ts →
      gppLoop db fuel i path = some (joinParts ts ++ path) := by
  intro fuel
  induction fuel with
  | zero =>
      intro i path ts h
      by_cases hi : i > 0
      · simp [resolveChain, hi] at h
      · simp [resolveChain, hi] at h
        subst h
        simp [gppLoop, hi, joinParts]
  | succ fuel ih =>
      intro i path ts h
      by_cases hi : i > 0
      · simp only [resolveChain, if_pos hi] at h
        cases hrows : lookupRows db i with
        | nil => rw [hrows] at h; simp at h
        | cons r rest =>
          cases rest with
          | cons r2 rest2 => rw [hrows] at h; simp at h
          | nil =>
            rw [hrows] at h
            simp only [Option.map_eq_some'] at h
            obtain ⟨ts', hts', hts⟩ := h
            simp only [gppLoop, if_pos hi, hrows]
            by_cases hp : r.parent > 0
            · rw [if_pos hp] at hts ⊢
              rw [ih r.parent ("/" ++ r.title ++ path) ts' hts', ← hts]
              simp [joinParts_append, String.append_assoc]
            · rw [if_neg hp] at hts ⊢
              rw [ih r.parent path ts' hts', ← hts]
      · simp only [resolveChain, if_neg hi] at h
        cases h
        simp [gppLoop, hi, joinParts]

theorem charForm_ne_nil (ts : List String) : charForm ts ≠ [] := by
  cases ts <;> simp [charForm]

theorem charForm_head (ts : List String) :
    ∃ rest, charForm ts = '/' :: rest := by
  cases ts with
  | nil => exact ⟨[], rfl⟩
  | cons t ts => exact ⟨t.data ++ charForm ts, rfl⟩

theorem pathChars_eq_charForm (ts : List String) :
    (joinParts ts ++ "/").data = charForm ts := by
  induction ts with
  | nil => rfl
  | cons t ts ih =>
      show ("/" ++ t ++ joinParts ts ++ "/").data = _
      simp only [String.data_append] at ih ⊢
      simp [charForm, ih]

theorem segCountAux_slash (b : Bool) (cs : List Char) :
    segCountAux b ('/' :: cs) = segCountAux false cs := by
  simp [segCountAux]

theorem segCountAux_run_true (cs : List Char) (rest : List Char)
    (h : ∀ c ∈ cs, c ≠ '/') :
    segCountAux true (cs ++ rest) = segCountAux true rest := by
  induction cs with
  | nil => rfl
  | cons c cs ih =>
      have hc : c ≠ '/' := h c (by simp)
      simp only [List.cons_append, segCountAux, if_neg hc, if_pos rfl]
      simpa using ih (fun x hx => h x (by simp [hx]))

theorem segCountAux_run_false (cs : List Char) (rest : List Char)
    (hne : cs ≠ []) (h : ∀ c ∈ cs, c ≠ '/') :
    segCountAux false (cs ++ rest) = 1 + segCountAux true rest := by
  cases cs with
  | nil => exact absurd rfl hne
  | cons c cs =>
      have hc : c ≠ '/' := h c (by simp)
      simp only [List.cons_append, segCountAux, if_neg hc, if_neg Bool.false_ne_true,
        List.append_eq]
      rw [segCountAux_run_true cs rest (fun x hx => h x (by simp [hx]))]

theorem segCountAux_charForm_true_eq_false (ts : List String) :
    segCountAux true (charForm ts) = segCountAux false (charForm ts) := by
  obtain ⟨rest, hrest⟩ := charForm_head ts
  rw [hrest, segCountAux_slash, segCountAux_slash]

theorem segCount_charForm (ts : List String)
    (h : ∀ t ∈ ts, t.data ≠ [] ∧ ∀ c ∈ t.data, c ≠ '/') :
    segCountAux false (charForm ts) = ts.length := by
  induction ts with
  | nil => rfl
  | cons t ts ih =>
      obtain ⟨hne, hslash⟩ := h t (by simp)
      simp only [charForm, segCountAux_slash]
      rw [segCountAux_run_false t.data (charForm ts) hne hslash,
        segCountAux_charForm_true_eq_false,
        ih (fun x hx => h x (by simp [hx]))]
      simp [List.length_cons]
      omega

theorem noDS_run (cs : List Char) (rest : List Char)
    (h : ∀ c ∈ cs, c ≠ '/') :
    noDS (cs ++ rest) = noDS rest := by
  induction cs with
  | nil => rfl
  | cons c cs ih =>
      have hc : c ≠ '/' := h c (by simp)
      have ih' := ih (fun x hx => h x (by simp [hx]))
      cases cs with
      | nil =>
          cases rest with
          | nil => rfl
          | cons r rest' =>
              simp only [List.nil_append, List.cons_append, noDS]
              simp [hc]
      | cons c2 cs2 =>
          have ih2 : noDS (c2 :: (cs2 ++ rest)) = noDS rest := by
            simpa using ih'
          simp only [List.cons_append, noDS, List.append_eq]
          rw [ih2]
          simp [hc]

theorem noDS_charForm (ts : List String)
    (h : ∀ t ∈ ts, t.data ≠ [] ∧ ∀ c ∈ t.data, c ≠ '/') :
    noDS (charForm ts) = true := by
  induction ts with
  | nil => rfl
  | cons t ts ih =>
      obtain ⟨hne, hslash⟩ := h t (by simp)
      cases htd : t.data with
      | nil => exact absurd htd hne
      | cons c cs =>
          have hc : c ≠ '/' := hslash c (by simp [htd])
          have hrun : ∀ x ∈ cs ++ charForm ts, True := by intro x _; trivial
          simp only [charForm, htd, List.cons_append, noDS]
          have : noDS (c :: (cs ++ charForm ts)) = noDS (charForm ts) := by
            have := noDS_run (c :: cs) (charForm ts)
              (by intro x hx; exact hslash x (by simp [htd, hx]))
            simpa using this
          rw [this, ih (fun x hx => h x (by simp [hx]))]
          simp [hc]

theorem charForm_getLast (ts : List String) :
    (charForm ts).getLast? = some '/' := by
  induction ts with
  | nil => rfl
  | cons t ts ih =>
      have hsplit : charForm (t :: ts) = ('/' :: t.data) ++ charForm ts := by
        simp [charForm]
      rw [hsplit, List.getLast?_append, ih]
      rfl

theorem perm_insertLe {α : Type} (le : α → α → Bool) (x : α) :
    ∀ s : List α, (insertLe le x s).Perm (x :: s)
  | [] => List.Perm.refl _
  | y :: ys => by
      rw [insertLe]
      by_cases h : le x y
      · rw [if_pos h]
      · rw [if_neg h]
        exact ((perm_insertLe le x ys).cons y).trans (List.Perm.swap x y ys)

theorem perm_sortLe {α : Type} (le : α → α → Bool) :
    ∀ l : List α, (sortLe le l).Perm l
  | [] => List.Perm.refl _
  | x :: xs => by
      rw [sortLe]
      exact (perm_insertLe le x (sortLe le xs)).trans ((perm_sortLe le xs).cons x)

theorem pairwise_insertLe_lexComb {α : Type} (le : α → α → Bool) (r : α → α → Prop)
    (htot : ∀ a b, (le a b || le b a) = true)
    (htr : ∀ a b c, le a b = true → le b c = true → le a c = true)
    {x : α} :
    ∀ {s : List α}, List.Pairwise (lexComb le r) s → (∀ y ∈ s, r x y) →
      List.Pairwise (lexComb le r) (insertLe le x s)
  | [], _, _ => by simp [insertLe, List.pairwise_cons]
  | b :: s', hs, hx => by
      rcases List.pairwise_cons.mp hs with ⟨hb, hs'⟩
      rw [insertLe]
      by_cases hxb : le x b = true
      · rw [if_pos hxb]
        refine List.pairwise_cons.mpr ⟨?_, hs⟩
        intro y hy
        rcases List.mem_cons.mp hy with rfl | hy'
        · cases hyx : le y x with
          | false => exact Or.inl ⟨hxb, hyx⟩
          | true => exact Or.inr ⟨⟨hxb, hyx⟩, hx y (by simp)⟩
        · have hby : le b y = true := by
            rcases hb y hy' with ⟨h1, _⟩ | ⟨⟨h1, _⟩, _⟩ <;> exact h1
          have hxy : le x y = true := htr x b y hxb hby
          cases hyx : le y x with
          | false => exact Or.inl ⟨hxy, hyx⟩
          | true => exact Or.inr ⟨⟨hxy, hyx⟩, hx y (by simp [hy'])⟩
      · rw [if_neg hxb]
        refine List.pairwise_cons.mpr ⟨?_, ?_⟩
        · intro y hy
          have hy' : y = x ∨ y ∈ s' := by
            have := (perm_insertLe le x s').mem_iff.mp hy
            simpa using this
          rcases hy' with rfl | hy'
          · have hbx : le b y = true := by
              have := htot y b
              cases h1 : le y b
              · cases h2 : le b y
                · rw [h1, h2] at this; simp at this
                · rfl
              · exact absurd h1 (by simpa using hxb)
            exact Or.inl ⟨hbx, by simpa using hxb⟩
          · exact hb y hy'
        · exact pairwise_insertLe_lexComb le r htot htr hs'
            (fun y hy => hx y (by simp [hy]))

theorem pairwise_sortLe_lexComb {α : Type} (le : α → α → Bool) (r : α → α → Prop)
    (htot : ∀ a b, (le a b || le b a) = true)
    (htr : ∀ a b c, le a b = true → le b c = true → le a c = true) :
    ∀ l : List α, List.Pairwise r l → List.Pairwise (lexComb le r) (sortLe le l)
  | [], _ => by simp [sortLe]
  | x :: xs, h => by
      rcases List.pairwise_cons.mp h with ⟨hx, hxs⟩
      rw [sortLe]
      exact pairwise_insertLe_lexComb le r htot htr
        (pairwise_sortLe_lexComb le r htot htr xs hxs)
        (fun y hy => hx y ((perm_sortLe le xs).mem_iff.mp hy))

theorem lexLeChars_total : ∀ as bs : List Char,
    (lexLeChars as bs || lexLeChars bs as) = true
  | [], _ => by simp [lexLeChars]
  | _ :: _, [] => by simp [lexLeChars]
  | a :: as, b :: bs => by
      by_cases hab : a = b
      · subst hab
        simp only [lexLeChars, if_pos rfl]
        exact lexLeChars_total as bs
      · have hba : ¬ b = a := fun h => hab h.symm
        simp only [lexLeChars, if_neg hab, if_neg hba]
        rcases lt_or_gt_of_ne hab with h | h
        · simp [h]
        · simp [h, asymm h]

theorem lexLeChars_trans : ∀ as bs cs : List Char,
    lexLeChars as bs = true → lexLeChars bs cs = true → lexLeChars as cs = true
  | [], _, _, _, _ => by simp [lexLeChars]
  | a :: as, [], cs, h1, _ => by simp [lexLeChars] at h1
  | a :: as, b :: bs, [], _, h2 => by simp [lexLeChars] at h2
  | a :: as, b :: bs, c :: cs, h1, h2 => by
      by_cases hab : a = b <;> by_cases hbc : b = c
      · subst hab; subst hbc
        simp only [lexLeChars, if_pos rfl] at h1 h2 ⊢
        exact lexLeChars_trans as bs cs h1 h2
      · subst hab
        simp only [lexLeChars, if_pos rfl, if_neg hbc] at h1 h2 ⊢
        exact h2
      · subst hbc
        simp only [lexLeChars, if_pos rfl, if_neg hab] at h1 h2 ⊢
        exact h1
      · simp only [lexLeChars, if_neg hab, if_neg hbc, decide_eq_true_eq] at h1 h2
        have hac : a < c := lt_trans h1 h2
        simp only [lexLeChars, if_neg (ne_of_lt hac), decide_eq_true_eq]
        exact hac

theorem lexLeChars_antisymm : ∀ as bs : List Char,
    lexLeChars as bs = true → lexLeChars bs as = true → as = bs
  | [], [], _, _ => rfl
  | [], _ :: _, _, h2 => by simp [lexLeChars] at h2
  | _ :: _, [], h1, _ => by simp [lexLeChars] at h1
  | a :: as, b :: bs, h1, h2 => by
      by_cases hab : a = b
      · subst hab
        simp only [lexLeChars, if_pos rfl] at h1 h2
        rw [lexLeChars_antisymm as bs h1 h2]
      · have hba : ¬ b = a := fun h => hab h.symm
        simp only [lexLeChars, if_neg hab, if_neg hba, decide_eq_true_eq] at h1 h2
        exact absurd h2 (asymm h1)

theorem leByKey_total {α : Type} (k : α → List Char) :
    ∀ a b, (leByKey k a b || leByKey k b a) = true :=
  fun a b => lexLeChars_total (k a) (k b)

theorem leByKey_trans {α : Type} (k : α → List Char) :
    ∀ a b c, leByKey k a b = true → leByKey k b c = true → leByKey k a c = true :=
  fun a b c h1 h2 => lexLeChars_trans (k a) (k b) (k c) h1 h2

/-- Claim C1: when the parent-chain walk from a folder id cannot reach the
sentinel within 99 hops (every lookup returning exactly one row, every
visited id positive), get_parent_path stops, prepends the marker /(ERROR)
to the path accumulated over those 99 hops, and returns that string
instead of aborting; get_bookmarks stores the record with that path and
keeps processing the remaining rows. -/
theorem claim_C1 (fdb : MozDb) (fmt : Int → String) (host asof : String)
    (row : PlaceRow) (rest : List PlaceRow) (rs : List MozRow)
    (hchain : chainPos fdb 99 row.parent = some rs)
    (hurl : pyStartswith row.url "http" = true) :
    get_parent_path fdb row.parent =
      some ("/(ERROR)" ++ (joinParts (rs.reverse.map MozRow.title) ++ "/")) ∧
    get_bookmarks fdb fmt host asof (row :: rest) =
      (get_bookmarks fdb fmt host asof rest).map
        (fun p => (p.1,
          { title := pyStr row.title, url := row.url,
            parent_path :=
              "/(ERROR)" ++ (joinParts (rs.reverse.map MozRow.title) ++ "/"),
            when_added := fmt row.dateAdded, host_name := host,
            asof_dt := asof } :: p.2)) := by
  have h1 : get_parent_path fdb row.parent =
      some ("/(ERROR)" ++ (joinParts (rs.reverse.map MozRow.title) ++ "/")) :=
    gppLoop_of_chainPos fdb 99 row.parent "/" rs hchain
  refine ⟨h1, ?_⟩
  rw [get_bookmarks, if_neg (by simp [hurl]), h1]

/-- Claim C1, witness: a single self-parented folder row produces a cycle;
the resolver returns the /(ERROR)-marked path and the extractor keeps the
record and finishes. -/
theorem claim_C1_witness :
    (chainPos [⟨1, 1, "loop"⟩] 99 ((⟨some "T", "http://x", 1, 0⟩ : PlaceRow)).parent
        = some (List.replicate 99 ⟨1, 1, "loop"⟩) ∧
      pyStartswith "http://x" "http" = true) ∧
    (get_parent_path [⟨1, 1, "loop"⟩] ((⟨some "T", "http://x", 1, 0⟩ : PlaceRow)).parent =
        some ("/(ERROR)" ++
          (joinParts ((List.replicate 99 (⟨1, 1, "loop"⟩ : MozRow)).reverse.map
            MozRow.title) ++ "/")) ∧
      get_bookmarks [⟨1, 1, "loop"⟩] (fun _ => "d") "h" "a"
          [⟨some "T", "http://x", 1, 0⟩] =
        (get_bookmarks [⟨1, 1, "loop"⟩] (fun _ => "d") "h" "a" []).map
          (fun p => (p.1,
            { title := pyStr (some "T"), url := "http://x",
              parent_path :=
                "/(ERROR)" ++
                  (joinParts ((List.replicate 99 (⟨1, 1, "loop"⟩ : MozRow)).reverse.map
                    MozRow.title) ++ "/"),
              when_added := (fun _ : Int => "d") 0, host_name := "h",
              asof_dt := "a" } :: p.2))) :=
  ⟨⟨by decide, by decide⟩,
    claim_C1 [⟨1, 1, "loop"⟩] (fun _ => "d") "h" "a" ⟨some "T", "http://x", 1, 0⟩ []
      (List.replicate 99 ⟨1, 1, "loop"⟩) (by decide) (by decide)⟩

set_option maxRecDepth 4000 in
/-- Claim C2, counterexample: two failures of the claim as stated.
First, the two-row forest (folder 1 below the sentinel titled menu,
folder 2 below folder 1 with an empty title) is structurally a
well-formed forest; the title chain of folder 2 is the one-element list
with the empty string, so its depth is 1, yet the resolved path is the
string of two slashes: an embedded double slash and zero slash-delimited
segments instead of one.  Second, the stated depth bound is off by one
at its boundary: in the 100-row chain (folder k+1 below folder k, folder
1 below the sentinel), folder 100 has depth 99 — top-level folders at
depth 0, the convention under which segment count can equal depth at all
— but its chain is 100 hops long, so the walk hits the guard and returns
the /(ERROR)-marked path with 100 segments instead of a clean 99-segment
path: clean resolution covers only depth up to 98. -/
theorem claim_C2_counterexample :
    (resolveChain [⟨1, 0, "menu"⟩, ⟨2, 1, ""⟩] 99 2 = some [""] ∧
      get_parent_path [⟨1, 0, "menu"⟩, ⟨2, 1, ""⟩] 2 = some "//" ∧
      noDS "//".data = false ∧
      segCount "//" = 0) ∧
    (resolveChain ((List.range 100).map (fun k => ⟨k + 1, k, "f"⟩)) 99 100 = none ∧
      listPrefix "/(ERROR)".data
        ((get_parent_path ((List.range 100).map (fun k => ⟨k + 1, k, "f"⟩))
          100).getD "").data = true ∧
      segCount ((get_parent_path ((List.range 100).map (fun k => ⟨k + 1, k, "f"⟩))
          100).getD "") = 100) := by decide

/-- Claim C2 (amended): whenever the walk from folder id i terminates
within 99 hops — that is, for nodes of depth at most 98, top-level
folders (the children of the sentinel) counting as depth 0; a depth-99
node already has a 100-hop chain and falls to the /(ERROR) guard of
claim C1 — with title chain ts (every lookup unique) and every title on
the chain is nonempty and slash-free, get_parent_path returns a nonempty
string that starts and ends with a slash, contains no embedded double
slash, and has exactly ts.length slash-delimited segments, ts.length
being the node's depth. -/
theorem claim_C2_amended (db : MozDb) (i : Int) (ts : List String)
    (hres : resolveChain db 99 i = some ts)
    (hts : ∀ t ∈ ts, t.data ≠ [] ∧ ∀ c ∈ t.data, c ≠ '/') :
    ∃ p : String, get_parent_path db i = some p ∧
      p ≠ "" ∧
      p.data.head? = some '/' ∧
      p.data.getLast? = some '/' ∧
      noDS p.data = true ∧
      segCount p = ts.length := by
  have h1 : get_parent_path db i = some (joinParts ts ++ "/") :=
    gppLoop_of_resolveChain db 99 i "/" ts hres
  have hdata : (joinParts ts ++ "/").data = charForm ts := pathChars_eq_charForm ts
  refine ⟨joinParts ts ++ "/", h1, ?_, ?_, ?_, ?_, ?_⟩
  · intro hempty
    have : (joinParts ts ++ "/").data = [] := by rw [hempty]
    exact charForm_ne_nil ts (by rw [← hdata]; exact this)
  · obtain ⟨rest, hrest⟩ := charForm_head ts
    rw [hdata, hrest]; rfl
  · rw [hdata]; exact charForm_getLast ts
  · rw [hdata]; exact noDS_charForm ts hts
  · show segCountAux false (joinParts ts ++ "/").data = ts.length
    rw [hdata]; exact segCount_charForm ts hts

/-- Claim C2, witness: the chain menu, folder-2 of depth 2 resolves to a
path with two segments, both slashes at the ends and no double slash. -/
theorem claim_C2_witness :
    (resolveChain [⟨1, 0, "root"⟩, ⟨2, 1, "menu"⟩, ⟨3, 2, "folder-2"⟩] 99 3
        = some ["menu", "folder-2"] ∧
      (∀ t ∈ (["menu", "folder-2"] : List String),
        t.data ≠ [] ∧ ∀ c ∈ t.data, c ≠ '/')) ∧
    (∃ p : String,
      get_parent_path [⟨1, 0, "root"⟩, ⟨2, 1, "menu"⟩, ⟨3, 2, "folder-2"⟩] 3 = some p ∧
      p ≠ "" ∧
      p.data.head? = some '/' ∧
      p.data.getLast? = some '/' ∧
      noDS p.data = true ∧
      segCount p = (["menu", "folder-2"] : List String).length) :=
  ⟨⟨by decide, by decide⟩,
    claim_C2_amended [⟨1, 0, "root"⟩, ⟨2, 1, "menu"⟩, ⟨3, 2, "folder-2"⟩] 3
      ["menu", "folder-2"] (by decide) (by decide)⟩

/-- Claim C3, counterexample: a row whose url is httpmagic:evil starts
with the four characters http but with neither http:// nor https://; the
extractor retains it, so not every surviving record has an http:// or
https:// url. -/
theorem claim_C3_counterexample :
    get_bookmarks [⟨1, 0, "menu"⟩] (fun _ => "d") "h" "a"
        [⟨some "T", "httpmagic:evil", 1, 0⟩] =
      some ([], [{ title := "T", url := "httpmagic:evil", parent_path := "/",
                   when_added := "d", host_name := "h", asof_dt := "a" }]) ∧
    pyStartswith "httpmagic:evil" "http://" = false ∧
    pyStartswith "httpmagic:evil" "https://" = false := by decide

/-- Claim C3 (amended): every record retained by get_bookmarks has a url
starting with the four characters http (the code tests only this prefix,
not a full http:// or https:// scheme), and exactly the rows whose url
does not start with http are skipped, each leaving one diagnostic and no
record. -/
theorem claim_C3_amended (fdb : MozDb) (fmt : Int → String) (host asof : String)
    (rows : List PlaceRow) (ds : List String) (bs : List Bookmark)
    (h : get_bookmarks fdb fmt host asof rows = some (ds, bs)) :
    (∀ b ∈ bs, pyStartswith b.url "http" = true) ∧
    ds = (rows.filter (fun r => !(pyStartswith r.url "http"))).map
      (fun r => skipMsg r.url) := by
  induction rows generalizing ds bs with
  | nil =>
      rw [get_bookmarks] at h
      cases h
      exact ⟨fun b hb => absurd hb (List.not_mem_nil b), rfl⟩
  | cons row rest ih =>
      rw [get_bookmarks] at h
      by_cases hu : pyStartswith row.url "http" = false
      · rw [if_pos hu] at h
        rcases Option.map_eq_some'.mp h with ⟨⟨ds', bs'⟩, hrec, heq⟩
        cases heq
        obtain ⟨h1, h2⟩ := ih ds' bs' hrec
        refine ⟨h1, ?_⟩
        simp [List.filter_cons, hu, h2, skipMsg]
      · rw [if_neg hu] at h
        have hu' : pyStartswith row.url "http" = true := by
          cases hv : pyStartswith row.url "http"
          · exact absurd hv hu
          · rfl
        cases hpp : get_parent_path fdb row.parent with
        | none => rw [hpp] at h; cases h
        | some pp =>
            rw [hpp] at h
            rcases Option.map_eq_some'.mp h with ⟨⟨ds', bs'⟩, hrec, heq⟩
            cases heq
            obtain ⟨h1, h2⟩ := ih ds' bs' hrec
            refine ⟨?_, ?_⟩
            · intro b hb
              rcases List.mem_cons.mp hb with rfl | hb'
              · exact hu'
              · exact h1 b hb'
            · simp [List.filter_cons, hu', h2]

/-- Claim C3, witness: one http row is kept, one javascript row is
skipped with its diagnostic. -/
theorem claim_C3_witness :
    get_bookmarks [⟨1, 0, "menu"⟩] (fun _ => "d") "h" "a"
        [⟨some "T", "http://x", 1, 0⟩, ⟨some "J", "javascript:void(0)", 1, 0⟩] =
      some (["SKIP NON-HTTP URL: 'javascript:void(0)'"],
        [{ title := "T", url := "http://x", parent_path := "/",
           when_added := "d", host_name := "h", asof_dt := "a" }]) ∧
    ((∀ b ∈ [({ title := "T", url := "http://x", parent_path := "/",
                when_added := "d", host_name := "h", asof_dt := "a" } : Bookmark)],
        pyStartswith b.url "http" = true) ∧
      ["SKIP NON-HTTP URL: 'javascript:void(0)'"] =
        (([⟨some "T", "http://x", 1, 0⟩,
            ⟨some "J", "javascript:void(0)", 1, 0⟩] : List PlaceRow).filter
          (fun r => !(pyStartswith r.url "http"))).map (fun r => skipMsg r.url)) :=
  ⟨by decide,
    claim_C3_amended [⟨1, 0, "menu"⟩] (fun _ => "d") "h" "a"
      [⟨some "T", "http://x", 1, 0⟩, ⟨some "J", "javascript:void(0)", 1, 0⟩]
      ["SKIP NON-HTTP URL: 'javascript:void(0)'"]
      [{ title := "T", url := "http://x", parent_path := "/",
         when_added := "d", host_name := "h", asof_dt := "a" }] (by decide)⟩

/-- Claim C4: the claimed title fallback never happens.  The source
applies str() to the title column before its None test, so the test is
dead: a NULL source title yields the literal title "None" instead of the
parenthesized url, and an empty-string source title yields an empty
title.  This evaluates the extractor on both failing inputs. -/
theorem claim_C4_code_eval :
    get_bookmarks [⟨1, 0, "menu"⟩] (fun _ => "d") "h" "a"
        [⟨none, "http://example.com/", 1, 0⟩,
          ⟨some "", "http://example.com/2", 1, 0⟩] =
      some ([],
        [{ title := "None", url := "http://example.com/", parent_path := "/",
           when_added := "d", host_name := "h", asof_dt := "a" },
         { title := "", url := "http://example.com/2", parent_path := "/",
           when_added := "d", host_name := "h", asof_dt := "a" }]) ∧
    "None" ≠ "(http://example.com/)" ∧
    ("" : String) ≠ "(http://example.com/2)" := by decide

theorem insertBmkRows_hosts (host_id : Nat) :
    ∀ (db : AggDb) (l : List Bookmark), (insertBmkRows host_id db l).hosts = db.hosts
  | _, [] => rfl
  | db, b :: r => by
      rw [insertBmkRows]
      exact insertBmkRows_hosts host_id _ r

theorem insertBmkRows_bookmarks (host_id : Nat) :
    ∀ (db : AggDb) (l : List Bookmark),
      (insertBmkRows host_id db l).bookmarks
        = db.bookmarks ++ bmkRowsFrom host_id db.nextBmkId l
  | _, [] => by simp [insertBmkRows, bmkRowsFrom]
  | db, b :: r => by
      rw [insertBmkRows, insertBmkRows_bookmarks host_id _ r, bmkRowsFrom]
      simp

/-- Claim C5: for nonempty host names (the program's assert on
opts.host_name aborts on an empty one before any database access), an
insert for a host name that already has a hosts row is rejected with no
mutation at all — the returned database state is the old one, so hosts,
bookmarks and every stored count are unchanged — and the out-db branch
of main then exits 1; a subsequent insert under a host name not yet
present succeeds and grows the hosts table by one row. -/
theorem claim_C5 (db : AggDb) (h h2 src src2 created created2 : String)
    (bmks bmks2 : List Bookmark)
    (hne : h ≠ "") (hne2 : h2 ≠ "")
    (hdup : db.hosts.any (fun r => r.host_name == h) = true)
    (hfresh : db.hosts.any (fun r => r.host_name == h2) = false) :
    insert_bookmarks db h src created bmks = some (db, false) ∧
    main_outdb db h src created bmks = some (db, 1) ∧
    (∃ db2, insert_bookmarks db h2 src2 created2 bmks2 = some (db2, true) ∧
      db2.hosts.length = db.hosts.length + 1) := by
  have e1 : insert_bookmarks db h src created bmks = some (db, false) := by
    rw [insert_bookmarks, if_neg hne, if_pos hdup]
  refine ⟨e1, ?_, ?_⟩
  · rw [main_outdb, e1]; rfl
  · refine ⟨insertBmkRows db.nextHostId
        { db with
          hosts := db.hosts ++
            [{ id := db.nextHostId, host_name := h2, source := src2,
               created := created2, app_name := app_name,
               app_version := fbxVersion }],
          nextHostId := db.nextHostId + 1 } bmks2, ?_, ?_⟩
    · rw [insert_bookmarks, if_neg hne2, if_neg (by simp [hfresh])]
    · rw [insertBmkRows_hosts]
      simp

/-- Claim C5, witness: with host alpha stored, loading alpha again is
rejected leaving the store untouched and exiting 1, and loading beta
afterwards succeeds and brings the host count to 2. -/
theorem claim_C5_witness :
    (("alpha" : String) ≠ "" ∧ ("beta" : String) ≠ "" ∧
      ((⟨[⟨1, "alpha", "s", "c", "fbx.py", "2024.05.1"⟩], [], 2, 1⟩ : AggDb)).hosts.any
        (fun r => r.host_name == "alpha") = true ∧
      ((⟨[⟨1, "alpha", "s", "c", "fbx.py", "2024.05.1"⟩], [], 2, 1⟩ : AggDb)).hosts.any
        (fun r => r.host_name == "beta") = false) ∧
    (insert_bookmarks ⟨[⟨1, "alpha", "s", "c", "fbx.py", "2024.05.1"⟩], [], 2, 1⟩
        "alpha" "s2" "c2" [] =
      some (⟨[⟨1, "alpha", "s", "c", "fbx.py", "2024.05.1"⟩], [], 2, 1⟩, false) ∧
    main_outdb ⟨[⟨1, "alpha", "s", "c", "fbx.py", "2024.05.1"⟩], [], 2, 1⟩
        "alpha" "s2" "c2" [] =
      some (⟨[⟨1, "alpha", "s", "c", "fbx.py", "2024.05.1"⟩], [], 2, 1⟩, 1) ∧
    (∃ db2, insert_bookmarks ⟨[⟨1, "alpha", "s", "c", "fbx.py", "2024.05.1"⟩], [], 2, 1⟩
        "beta" "s3" "c3" [] = some (db2, true) ∧
      db2.hosts.length =
        ((⟨[⟨1, "alpha", "s", "c", "fbx.py", "2024.05.1"⟩], [], 2, 1⟩ : AggDb)).hosts.length
          + 1)) :=
  ⟨⟨by decide, by decide, by decide, by decide⟩,
    claim_C5 ⟨[⟨1, "alpha", "s", "c", "fbx.py", "2024.05.1"⟩], [], 2, 1⟩
      "alpha" "beta" "s2" "s3" "c2" "c3" [] []
      (by decide) (by decide) (by decide) (by decide)⟩

/-- Claim C10: for nonempty host names (the assert on opts.host_name
aborts on an empty one), the duplicate-host probe compares host names by
exact, case-sensitive string equality (SQLite BINARY collation on TEXT):
a host name with a stored row is rejected without mutation, while a name
equal to no stored row — even one differing from a stored name only in
letter case — is accepted and appended, after which both rows coexist in
the hosts table. -/
theorem claim_C10 (db : AggDb) (h h2 src src2 created created2 : String)
    (bmks bmks2 : List Bookmark)
    (hne : h ≠ "") (hne2 : h2 ≠ "")
    (hdup : h ∈ db.hosts.map HostRow.host_name)
    (hfresh : h2 ∉ db.hosts.map HostRow.host_name) :
    insert_bookmarks db h src created bmks = some (db, false) ∧
    (∃ db2, insert_bookmarks db h2 src2 created2 bmks2 = some (db2, true) ∧
      db2.hosts.map HostRow.host_name
        = db.hosts.map HostRow.host_name ++ [h2]) := by
  have hdup' : db.hosts.any (fun r => r.host_name == h) = true := by
    rw [List.any_eq_true]
    rcases List.mem_map.mp hdup with ⟨r, hr, hrh⟩
    exact ⟨r, hr, by simp [hrh]⟩
  have hfresh' : db.hosts.any (fun r => r.host_name == h2) = false := by
    rw [List.any_eq_false]
    intro r hr hrh
    exact hfresh (List.mem_map.mpr ⟨r, hr, by simpa using hrh⟩)
  refine ⟨by rw [insert_bookmarks, if_neg hne, if_pos hdup'], ?_⟩
  refine ⟨insertBmkRows db.nextHostId
      { db with
        hosts := db.hosts ++
          [{ id := db.nextHostId, host_name := h2, source := src2,
             created := created2, app_name := app_name,
             app_version := fbxVersion }],
        nextHostId := db.nextHostId + 1 } bmks2, ?_, ?_⟩
  · rw [insert_bookmarks, if_neg hne2, if_neg (by simp [hfresh'])]
  · rw [insertBmkRows_hosts]
    simp

/-- Claim C10, witness: with host alpha stored, inserting host Alpha
(case difference only) succeeds and both names then coexist, while
inserting alpha again is rejected unchanged. -/
theorem claim_C10_witness :
    (("alpha" : String) ≠ "" ∧ ("Alpha" : String) ≠ "" ∧
      "alpha" ∈ (([⟨1, "alpha", "s", "c", "fbx.py", "2024.05.1"⟩] : List HostRow)).map
        HostRow.host_name ∧
      "Alpha" ∉ (([⟨1, "alpha", "s", "c", "fbx.py", "2024.05.1"⟩] : List HostRow)).map
        HostRow.host_name) ∧
    (insert_bookmarks ⟨[⟨1, "alpha", "s", "c", "fbx.py", "2024.05.1"⟩], [], 2, 1⟩
        "alpha" "s2" "c2" [] =
      some (⟨[⟨1, "alpha", "s", "c", "fbx.py", "2024.05.1"⟩], [], 2, 1⟩, false) ∧
    (∃ db2, insert_bookmarks ⟨[⟨1, "alpha", "s", "c", "fbx.py", "2024.05.1"⟩], [], 2, 1⟩
        "Alpha" "s3" "c3" [] = some (db2, true) ∧
      db2.hosts.map HostRow.host_name =
        (([⟨1, "alpha", "s", "c", "fbx.py", "2024.05.1"⟩] : List HostRow)).map
          HostRow.host_name ++ ["Alpha"])) :=
  ⟨⟨by decide, by decide, by decide, by decide⟩,
    claim_C10 ⟨[⟨1, "alpha", "s", "c", "fbx.py", "2024.05.1"⟩], [], 2, 1⟩
      "alpha" "Alpha" "s2" "s3" "c2" "c3" [] []
      (by decide) (by decide) (by decide) (by decide)⟩

theorem view_of_rows (hr : HostRow) :
    ∀ (n : Nat) (bmks : List Bookmark),
      (bmkRowsFrom hr.id n bmks).flatMap (fun b =>
        (([hr] : List HostRow).filter (fun hrow => hrow.id == b.host_id)).map
          (fun hrow =>
            ({ title := b.title, url := b.url, parent_path := b.parent_path,
               when_added := b.when_added, host_name := hrow.host_name,
               asof_dt := hrow.created } : Bookmark)))
        = bmks.map (fun b =>
            { title := b.title, url := b.url, parent_path := b.parent_path,
              when_added := b.when_added, host_name := hr.host_name,
              asof_dt := hr.created })
  | _, [] => rfl
  | n, b :: r => by
      rw [bmkRowsFrom, List.flatMap_cons, view_of_rows hr (n + 1) r]
      simp [List.filter_cons]

/-- Claim C6: round trip through a fresh aggregation store: inserting a
collection for host h (h nonempty, as the program's assert requires, and
each record tagged with h, as every record the extractor hands to the
store is) succeeds, and retrieval reports one host and returns a
permutation of the inserted (title, url, parentPath, whenAdded,
hostName) tuples; only the as-of date is replaced by the host creation
time. -/
theorem claim_C6 (h src created : String) (bmks : List Bookmark)
    (hne : h ≠ "")
    (hhost : ∀ b ∈ bmks, b.host_name = h) :
    ∃ db1, insert_bookmarks emptyAggDb h src created bmks = some (db1, true) ∧
      (get_bookmarks_from_db db1).1 = 1 ∧
      ((get_bookmarks_from_db db1).2.map bmkTuple).Perm (bmks.map bmkTuple) := by
  set hr : HostRow :=
    { id := 1, host_name := h, source := src, created := created,
      app_name := app_name, app_version := fbxVersion } with hhr
  set db1 : AggDb := insertBmkRows 1 ⟨[hr], [], 2, 1⟩ bmks with hdb1
  have hins : insert_bookmarks emptyAggDb h src created bmks = some (db1, true) := by
    rw [insert_bookmarks, if_neg hne, if_neg (by simp [emptyAggDb])]
    rfl
  have hhosts : db1.hosts = [hr] := by
    rw [hdb1]
    exact insertBmkRows_hosts 1 _ bmks
  have hbmks : db1.bookmarks = bmkRowsFrom 1 1 bmks := by
    rw [hdb1]
    exact insertBmkRows_bookmarks 1 _ bmks
  have hview : viewRows db1
      = bmks.map (fun b =>
          { title := b.title, url := b.url, parent_path := b.parent_path,
            when_added := b.when_added, host_name := hr.host_name,
            asof_dt := hr.created }) := by
    rw [viewRows, hhosts, hbmks]
    exact view_of_rows hr 1 bmks
  refine ⟨db1, hins, by rw [get_bookmarks_from_db, hhosts]; rfl, ?_⟩
  have hperm : ((get_bookmarks_from_db db1).2).Perm (viewRows db1) :=
    perm_sortLe _ _
  refine (hperm.map bmkTuple).trans ?_
  rw [hview, List.map_map]
  have : bmks.map (bmkTuple ∘ (fun b =>
      ({ title := b.title, url := b.url, parent_path := b.parent_path,
         when_added := b.when_added, host_name := hr.host_name,
         asof_dt := hr.created } : Bookmark))) = bmks.map bmkTuple := by
    refine List.map_congr_left ?_
    intro b hb
    simp [bmkTuple, Function.comp, hhost b hb]
  rw [this]

/-- Claim C6, witness: two records for host alpha survive the round trip
with their tuples intact (retrieval reorders them by path and title). -/
theorem claim_C6_witness :
    (("alpha" : String) ≠ "" ∧
      ∀ b ∈ [({ title := "t2", url := "u2", parent_path := "/b/",
                when_added := "w2", host_name := "alpha", asof_dt := "a" } : Bookmark),
              ({ title := "t1", url := "u1", parent_path := "/a/",
                 when_added := "w1", host_name := "alpha", asof_dt := "a" } : Bookmark)],
        b.host_name = "alpha") ∧
    (∃ db1, insert_bookmarks emptyAggDb "alpha" "s" "c"
        [{ title := "t2", url := "u2", parent_path := "/b/",
           when_added := "w2", host_name := "alpha", asof_dt := "a" },
         { title := "t1", url := "u1", parent_path := "/a/",
           when_added := "w1", host_name := "alpha", asof_dt := "a" }] =
        some (db1, true) ∧
      (get_bookmarks_from_db db1).1 = 1 ∧
      ((get_bookmarks_from_db db1).2.map bmkTuple).Perm
        ([({ title := "t2", url := "u2", parent_path := "/b/",
             when_added := "w2", host_name := "alpha", asof_dt := "a" } : Bookmark),
          ({ title := "t1", url := "u1", parent_path := "/a/",
             when_added := "w1", host_name := "alpha", asof_dt := "a" } : Bookmark)].map
          bmkTuple)) :=
  ⟨⟨by decide, by decide⟩,
    claim_C6 "alpha" "s" "c"
      [{ title := "t2", url := "u2", parent_path := "/b/",
         when_added := "w2", host_name := "alpha", asof_dt := "a" },
       { title := "t1", url := "u1", parent_path := "/a/",
         when_added := "w1", host_name := "alpha", asof_dt := "a" }]
      (by decide) (by decide)⟩

/-- Claim C7, counterexample: write_bookmarks_html sorts the caller's
collection in place; called on a two-record list whose host names are out
of order, the caller's list afterwards is reordered, not unchanged as the
claim states. -/
theorem claim_C7_counterexample :
    (write_bookmarks_html asciiLowerKey "rd"
        [{ title := "t", url := "u", parent_path := "/", when_added := "w",
           host_name := "bb", asof_dt := "a" },
         { title := "t", url := "u", parent_path := "/", when_added := "w",
           host_name := "aa", asof_dt := "a" }]).1 ≠
      [{ title := "t", url := "u", parent_path := "/", when_added := "w",
         host_name := "bb", asof_dt := "a" },
       { title := "t", url := "u", parent_path := "/", when_added := "w",
         host_name := "aa", asof_dt := "a" }] := by decide

/-- Claim C7 (amended): each renderer's in-place sort only reorders the
caller's collection: after any of the four rendering functions returns,
the caller's list is a permutation of the original — the same elements,
none added, removed or modified — arranged by that renderer's own sort
keys, and the emitted text is a function of the collection alone.  The
property holds for every lowercase key function, in particular the one
Python str.lower induces. -/
theorem claim_C7_amended (lowerKey : String → List Char) (runDtStr : String)
    (n_hosts : Nat) (bmks : List Bookmark) :
    (write_bookmarks_html lowerKey runDtStr bmks).1.Perm bmks ∧
    (write_bookmarks_by_date_html lowerKey runDtStr n_hosts bmks).1.Perm bmks ∧
    (write_bookmarks_markdown lowerKey runDtStr bmks).1.Perm bmks ∧
    (write_bookmarks_markdown_by_date lowerKey runDtStr n_hosts bmks).1.Perm bmks := by
  refine ⟨?_, ?_, ?_, ?_⟩ <;>
    exact (perm_sortLe _ _).trans ((perm_sortLe _ _).trans (perm_sortLe _ _))

theorem lexLeChars_refl : ∀ as : List Char, lexLeChars as as = true
  | [] => rfl
  | a :: as => by simp [lexLeChars, lexLeChars_refl as]

theorem pairwise_true {α : Type} : ∀ l : List α, List.Pairwise (fun _ _ => True) l
  | [] => List.Pairwise.nil
  | _ :: xs => List.Pairwise.cons (fun _ _ => trivial) (pairwise_true xs)

theorem sortByLocation_pairwise (lowerKey : String → List Char)
    (bmks : List Bookmark) :
    List.Pairwise (locationOrder lowerKey) (sortByLocation lowerKey bmks) := by
  have h1 : List.Pairwise
      (fun a b : Bookmark => leByKey (fun x => lowerKey x.title) a b = true)
      (sortLe (leByKey (fun x => lowerKey x.title)) bmks) := by
    have := pairwise_sortLe_lexComb (leByKey (fun x => lowerKey x.title))
      (fun _ _ => True) (leByKey_total _) (leByKey_trans _) bmks (pairwise_true bmks)
    exact this.imp (fun h => by
      rcases h with ⟨ha, _⟩ | ⟨⟨ha, _⟩, _⟩ <;> exact ha)
  have h2 := pairwise_sortLe_lexComb (leByKey (fun x => lowerKey x.parent_path))
    _ (leByKey_total _) (leByKey_trans _) _ h1
  have h3 := pairwise_sortLe_lexComb (leByKey (fun x => lowerKey x.host_name))
    _ (leByKey_total _) (leByKey_trans _) _ h2
  refine h3.imp ?_
  intro a b hab
  rcases hab with ⟨hH1, hH2⟩ | ⟨⟨hH1, _⟩, hPrest⟩
  · refine ⟨hH1, fun heq => ?_⟩
    exfalso
    have hrefl : leByKey (fun x => lowerKey x.host_name) b a = true := by
      show lexLeChars (lowerKey b.host_name) (lowerKey a.host_name) = true
      rw [← heq]
      exact lexLeChars_refl _
    rw [hH2] at hrefl
    exact Bool.false_ne_true hrefl
  · refine ⟨hH1, fun _ => ?_⟩
    rcases hPrest with ⟨hP1, hP2⟩ | ⟨⟨hP1, _⟩, hT⟩
    · refine ⟨hP1, fun heqp => ?_⟩
      exfalso
      have hrefl : leByKey (fun x => lowerKey x.parent_path) b a = true := by
        show lexLeChars (lowerKey b.parent_path) (lowerKey a.parent_path) = true
        rw [← heqp]
        exact lexLeChars_refl _
      rw [hP2] at hrefl
      exact Bool.false_ne_true hrefl
    · exact ⟨hP1, fun _ => hT⟩

theorem htmlEntries_flags :
    ∀ (prev : String) (l : List Bookmark),
      (∀ b ∈ l, b.host_name ≠ "") → (∀ b ∈ l, b.asof_dt ≠ "") →
      ∃ es, htmlEntries prev l = some es ∧
        es.map (fun p => p.1.isSome) = hostChanges prev l
  | _, [], _, _ => ⟨[], rfl, rfl⟩
  | prev, bmk :: rest, hh, ha => by
      have hnext : (if bmk.host_name ≠ prev then bmk.host_name else prev)
          = bmk.host_name := by
        by_cases hc : bmk.host_name = prev <;> simp [hc]
      obtain ⟨es, hes, hflags⟩ := htmlEntries_flags bmk.host_name rest
        (fun b hb => hh b (by simp [hb])) (fun b hb => ha b (by simp [hb]))
      refine ⟨((if bmk.host_name ≠ prev then some (htmlHostHeader bmk) else none),
        htmlEntry "" bmk) :: es, ?_, ?_⟩
      · rw [htmlEntries, if_neg (hh bmk (by simp)), if_neg (ha bmk (by simp)),
          hnext, hes]
        rfl
      · simp only [List.map_cons, hflags, hostChanges]
        congr 1
        by_cases hc : bmk.host_name ≠ prev <;> simp [hc]

theorem mdEntries_flags :
    ∀ (prev : String) (l : List Bookmark),
      (mdEntries prev l).map (fun p => p.1.isSome) = hostChanges prev l
  | _, [] => rfl
  | prev, bmk :: rest => by
      have hnext : (if bmk.host_name ≠ prev then bmk.host_name else prev)
          = bmk.host_name := by
        by_cases hc : bmk.host_name = prev <;> simp [hc]
      rw [mdEntries, List.map_cons, hnext, mdEntries_flags bmk.host_name rest,
        hostChanges]
      congr 1
      by_cases hc : bmk.host_name ≠ prev <;> simp [hc]

theorem hostChanges_same (h : String) :
    ∀ l : List Bookmark, (∀ b ∈ l, b.host_name = h) →
      hostChanges h l = List.replicate l.length false
  | [], _ => rfl
  | b :: r, hall => by
      have hb : b.host_name = h := hall b (by simp)
      rw [hostChanges, hb, hostChanges_same h r (fun x hx => hall x (by simp [hx]))]
      simp [List.replicate]

/-- Claim C8: for every collection, multi-host ones included, whose
records carry nonempty host names and as-of dates (the invariant the
program maintains and write_bookmarks_html asserts), the location-ordered
renderers emit the records sorted primarily by host name, then folder
path, then title, case-insensitively through the lowercase key lowerKey
that Python str.lower induces — the order the three successive stable
in-place sorts, applied in reverse priority order, realize — and a host
section header appears exactly on the records whose host name differs
from the previously emitted record's host (the first record compared
against the initial empty last_host), which hostChanges describes.  The
Markdown renderer applies the same three sorts, so its emission list
coincides with the HTML one.  Consequently a nonempty single-host export
carries exactly one header, on the first record. -/
theorem claim_C8 (lowerKey : String → List Char) (runDtStr : String)
    (bmks : List Bookmark)
    (hhostne : ∀ b ∈ bmks, b.host_name ≠ "")
    (hasof : ∀ b ∈ bmks, b.asof_dt ≠ "") :
    List.Pairwise (locationOrder lowerKey)
      (write_bookmarks_html lowerKey runDtStr bmks).1 ∧
    (∃ es, htmlEntries "" (write_bookmarks_html lowerKey runDtStr bmks).1
        = some es ∧
      es.map (fun p => p.1.isSome)
        = hostChanges "" (write_bookmarks_html lowerKey runDtStr bmks).1) ∧
    (write_bookmarks_markdown lowerKey runDtStr bmks).1
      = (write_bookmarks_html lowerKey runDtStr bmks).1 ∧
    (mdEntries "" (write_bookmarks_markdown lowerKey runDtStr bmks).1).map
        (fun p => p.1.isSome)
      = hostChanges "" (write_bookmarks_markdown lowerKey runDtStr bmks).1 ∧
    (∀ h, h ≠ "" → bmks ≠ [] → (∀ b ∈ bmks, b.host_name = h) →
      hostChanges "" (write_bookmarks_html lowerKey runDtStr bmks).1
        = true :: List.replicate
            ((write_bookmarks_html lowerKey runDtStr bmks).1.length - 1) false) := by
  have hperm : (sortByLocation lowerKey bmks).Perm bmks :=
    (perm_sortLe _ _).trans ((perm_sortLe _ _).trans (perm_sortLe _ _))
  have hs : (write_bookmarks_html lowerKey runDtStr bmks).1
      = sortByLocation lowerKey bmks := rfl
  have hhostne' : ∀ b ∈ sortByLocation lowerKey bmks, b.host_name ≠ "" :=
    fun b hb => hhostne b (hperm.mem_iff.mp hb)
  have hasof' : ∀ b ∈ sortByLocation lowerKey bmks, b.asof_dt ≠ "" :=
    fun b hb => hasof b (hperm.mem_iff.mp hb)
  refine ⟨?_, ?_, rfl, ?_, ?_⟩
  · rw [hs]
    exact sortByLocation_pairwise lowerKey bmks
  · rw [hs]
    exact htmlEntries_flags "" (sortByLocation lowerKey bmks) hhostne' hasof'
  · have hs2 : (write_bookmarks_markdown lowerKey runDtStr bmks).1
        = sortByLocation lowerKey bmks := rfl
    rw [hs2]
    exact mdEntries_flags "" (sortByLocation lowerKey bmks)
  · intro h hne hnil hhost
    have hhost' : ∀ b ∈ sortByLocation lowerKey bmks, b.host_name = h :=
      fun b hb => hhost b (hperm.mem_iff.mp hb)
    rw [hs]
    cases hsort : sortByLocation lowerKey bmks with
    | nil =>
        exfalso
        rw [hsort] at hperm
        exact hnil (List.Perm.eq_nil hperm.symm)
    | cons b0 t =>
        have hb0 : b0.host_name = h := hhost' b0 (by rw [hsort]; simp)
        have ht : ∀ b ∈ t, b.host_name = b0.host_name := by
          intro b hb
          rw [hb0, hhost' b (by rw [hsort]; simp [hb])]
        rw [hostChanges, hostChanges_same b0.host_name t ht]
        have hd : decide (b0.host_name ≠ "") = true := by
          rw [hb0]
          simp [hne]
        simp [hd]

/-- Claim C8, witness: a two-record, two-host export, instantiating the
lowercase key with its ASCII restriction on ASCII inputs: the records
come out sorted with alpha before beta, and the header flags mark
exactly the two host changes. -/
theorem claim_C8_witness :
    ((∀ b ∈ [({ title := "t2", url := "u2", parent_path := "/b/", when_added := "w2", host_name := "beta", asof_dt := "a" } : Bookmark),
        ({ title := "t1", url := "u1", parent_path := "/a/", when_added := "w1", host_name := "alpha", asof_dt := "a" } : Bookmark)],
        b.host_name ≠ "") ∧
      (∀ b ∈ [({ title := "t2", url := "u2", parent_path := "/b/", when_added := "w2", host_name := "beta", asof_dt := "a" } : Bookmark),
        ({ title := "t1", url := "u1", parent_path := "/a/", when_added := "w1", host_name := "alpha", asof_dt := "a" } : Bookmark)],
        b.asof_dt ≠ "")) ∧
    (List.Pairwise (locationOrder asciiLowerKey)
        (write_bookmarks_html asciiLowerKey "rd"
          [({ title := "t2", url := "u2", parent_path := "/b/", when_added := "w2", host_name := "beta", asof_dt := "a" } : Bookmark),
            ({ title := "t1", url := "u1", parent_path := "/a/", when_added := "w1", host_name := "alpha", asof_dt := "a" } : Bookmark)]).1 ∧
      (∃ es, htmlEntries ""
          (write_bookmarks_html asciiLowerKey "rd"
            [({ title := "t2", url := "u2", parent_path := "/b/", when_added := "w2", host_name := "beta", asof_dt := "a" } : Bookmark),
              ({ title := "t1", url := "u1", parent_path := "/a/", when_added := "w1", host_name := "alpha", asof_dt := "a" } : Bookmark)]).1 = some es ∧
        es.map (fun p => p.1.isSome)
          = hostChanges ""
              (write_bookmarks_html asciiLowerKey "rd"
                [({ title := "t2", url := "u2", parent_path := "/b/", when_added := "w2", host_name := "beta", asof_dt := "a" } : Bookmark),
                  ({ title := "t1", url := "u1", parent_path := "/a/", when_added := "w1", host_name := "alpha", asof_dt := "a" } : Bookmark)]).1) ∧
      (write_bookmarks_markdown asciiLowerKey "rd"
          [({ title := "t2", url := "u2", parent_path := "/b/", when_added := "w2", host_name := "beta", asof_dt := "a" } : Bookmark),
            ({ title := "t1", url := "u1", parent_path := "/a/", when_added := "w1", host_name := "alpha", asof_dt := "a" } : Bookmark)]).1
        = (write_bookmarks_html asciiLowerKey "rd"
            [({ title := "t2", url := "u2", parent_path := "/b/", when_added := "w2", host_name := "beta", asof_dt := "a" } : Bookmark),
              ({ title := "t1", url := "u1", parent_path := "/a/", when_added := "w1", host_name := "alpha", asof_dt := "a" } : Bookmark)]).1 ∧
      (mdEntries ""
          (write_bookmarks_markdown asciiLowerKey "rd"
            [({ title := "t2", url := "u2", parent_path := "/b/", when_added := "w2", host_name := "beta", asof_dt := "a" } : Bookmark),
              ({ title := "t1", url := "u1", parent_path := "/a/", when_added := "w1", host_name := "alpha", asof_dt := "a" } : Bookmark)]).1).map (fun p => p.1.isSome)
        = hostChanges ""
            (write_bookmarks_markdown asciiLowerKey "rd"
              [({ title := "t2", url := "u2", parent_path := "/b/", when_added := "w2", host_name := "beta", asof_dt := "a" } : Bookmark),
                ({ title := "t1", url := "u1", parent_path := "/a/", when_added := "w1", host_name := "alpha", asof_dt := "a" } : Bookmark)]).1 ∧
      (∀ h, h ≠ "" →
        ([({ title := "t2", url := "u2", parent_path := "/b/", when_added := "w2", host_name := "beta", asof_dt := "a" } : Bookmark),
          ({ title := "t1", url := "u1", parent_path := "/a/", when_added := "w1", host_name := "alpha", asof_dt := "a" } : Bookmark)] : List Bookmark) ≠ [] →
        (∀ b ∈ [({ title := "t2", url := "u2", parent_path := "/b/", when_added := "w2", host_name := "beta", asof_dt := "a" } : Bookmark),
          ({ title := "t1", url := "u1", parent_path := "/a/", when_added := "w1", host_name := "alpha", asof_dt := "a" } : Bookmark)],
          b.host_name = h) →
        hostChanges ""
            (write_bookmarks_html asciiLowerKey "rd"
              [({ title := "t2", url := "u2", parent_path := "/b/", when_added := "w2", host_name := "beta", asof_dt := "a" } : Bookmark),
                ({ title := "t1", url := "u1", parent_path := "/a/", when_added := "w1", host_name := "alpha", asof_dt := "a" } : Bookmark)]).1
          = true :: List.replicate
              ((write_bookmarks_html asciiLowerKey "rd"
                [({ title := "t2", url := "u2", parent_path := "/b/", when_added := "w2", host_name := "beta", asof_dt := "a" } : Bookmark),
                  ({ title := "t1", url := "u1", parent_path := "/a/", when_added := "w1", host_name := "alpha", asof_dt := "a" } : Bookmark)]).1.length - 1) false)) :=
  ⟨⟨by decide, by decide⟩,
    claim_C8 asciiLowerKey "rd"
      [({ title := "t2", url := "u2", parent_path := "/b/", when_added := "w2", host_name := "beta", asof_dt := "a" } : Bookmark),
        ({ title := "t1", url := "u1", parent_path := "/a/", when_added := "w1", host_name := "alpha", asof_dt := "a" } : Bookmark)]
      (by decide) (by decide)⟩

theorem flatMap_id_of (l : List Char) (f : Char → List Char)
    (h : ∀ c ∈ l, f c = [c]) : l.flatMap f = l := by
  induction l with
  | nil => rfl
  | cons c cs ih =>
      rw [List.flatMap_cons, h c (by simp), ih (fun x hx => h x (by simp [hx]))]
      rfl

theorem asciiEscChar_plain (c : Char) (h : plainChar c) :
    asciiEscChar '\'' c = [c] := by
  obtain ⟨h1, h2, h3, h4⟩ := h
  have hn : ¬ (c = '\n') := by intro he; subst he; exact absurd h1 (by decide)
  have hr : ¬ (c = '\r') := by intro he; subst he; exact absurd h1 (by decide)
  have ht : ¬ (c = '\t') := by intro he; subst he; exact absurd h1 (by decide)
  have hlow : ¬ (c.toNat < 32 ∨ c.toNat = 127) := by omega
  rw [asciiEscChar, if_neg h4, if_neg h3, if_neg hn, if_neg hr, if_neg ht,
    if_neg hlow, if_pos h2]

theorem pyAscii_plain (s : String) (h : ∀ c ∈ s.data, plainChar c) :
    pyAscii s = String.mk ('\'' :: s.data ++ ['\'']) := by
  have hq : s.data.any (fun c => c == '\'') = false := by
    rw [List.any_eq_false]
    intro c hc
    simp [(h c hc).2.2.1]
  have hfm : s.data.flatMap (asciiEscChar '\'') = s.data :=
    flatMap_id_of s.data _ (fun c hc => asciiEscChar_plain c (h c hc))
  rw [pyAscii]
  simp only [hq, Bool.false_and, Bool.false_eq_true, if_false, hfm]

theorem pyStrip_quoted (c : Char) (hc : ¬ (c = '\'')) (mid : List Char) :
    pyStrip (String.mk ('\'' :: c :: (mid ++ ['.'])))
      = String.mk (c :: (mid ++ ['.'])) := by
  rw [pyStrip]
  have h1 : (('\'' : Char) :: c :: (mid ++ ['.'])).dropWhile (fun x => x = '\'')
      = c :: (mid ++ ['.']) := by
    rw [List.dropWhile_cons, if_pos (by simp), List.dropWhile_cons, if_neg (by simp [hc])]
  have h2 : (c :: (mid ++ ['.'])).reverse = '.' :: (mid.reverse ++ [c]) := by
    rw [List.reverse_cons, List.reverse_append]
    rfl
  show String.mk
      ((((('\'' : Char) :: c :: (mid ++ ['.'])).dropWhile
        (fun x => x = '\'')).reverse.dropWhile (fun x => x = '\'')).reverse) = _
  rw [h1, h2, List.dropWhile_cons, if_neg (by simp), ← h2, List.reverse_reverse]

set_option maxRecDepth 4000 in
/-- Claim C9, counterexample: for the 200-character title of letters a,
the HTML renderers do not emit the title's first 177 characters plus the
ellipsis — the repr quote added by ascii() occupies the first kept
character, so only 176 title characters survive — and the Markdown
renderers emit 179 visible characters, not 180, because the leading
quote is stripped after truncation. -/
theorem claim_C9_counterexample :
    limited (pyAscii (String.mk (List.replicate 200 'a')))
      ≠ String.mk (List.replicate 177 'a') ++ "..." ∧
    limited (pyAscii (String.mk (List.replicate 200 'a')))
      = String.mk ('\'' :: List.replicate 176 'a') ++ "..." ∧
    (pyStrip (limited (pyAscii (String.mk (List.replicate 200 'a'))))).length
      = 179 := by decide

/-- Claim C9 (amended): every renderer truncates before escaping, but the
value truncated is the ascii() repr of the title, which carries repr
quotes: for any 200-character title of plain printable ASCII characters
(no apostrophe or backslash), the HTML renderers emit the escaping of a
180-character string made of an apostrophe, the first 176 title
characters and the three-character marker, while the Markdown renderers
strip the leading apostrophe after truncation and emit the escaping of
the resulting 179-character string. -/
theorem claim_C9_amended (t : String) (hlen : t.length = 200)
    (hplain : ∀ c ∈ t.data, plainChar c) :
    limited (pyAscii t) = String.mk ('\'' :: t.data.take 176) ++ "..." ∧
    (limited (pyAscii t)).length = 180 ∧
    renderedTitleHtml t = htm_txt (String.mk ('\'' :: t.data.take 176) ++ "...") ∧
    pyStrip (limited (pyAscii t)) = String.mk (t.data.take 176 ++ "...".data) ∧
    (pyStrip (limited (pyAscii t))).length = 179 ∧
    renderedTitleMd t = htm_txt (String.mk (t.data.take 176 ++ "...".data)) := by
  have hdlen : t.data.length = 200 := hlen
  have hasc : pyAscii t = String.mk ('\'' :: t.data ++ ['\'']) := pyAscii_plain t hplain
  have hlim : limited (pyAscii t) = String.mk ('\'' :: t.data.take 176) ++ "..." := by
    rw [hasc, limited]
    rw [if_neg (by
      show ¬ (('\'' :: t.data ++ ['\'']).length ≤ 180)
      simp [hdlen])]
    congr 1
    show String.mk (('\'' :: t.data ++ ['\'']).take 177) = _
    rw [show (('\'' : Char) :: t.data ++ ['\'']) = '\'' :: (t.data ++ ['\'']) from rfl,
      List.take_succ_cons, List.take_append_of_le_length (by omega)]
  have hlimlen : (limited (pyAscii t)).length = 180 := by
    rw [hlim, String.length_append]
    show ('\'' :: t.data.take 176).length + 3 = 180
    simp [List.length_take, hdlen]
  have htake : ∃ c cs, t.data.take 176 = c :: cs ∧ ¬ (c = '\'') := by
    cases hd : t.data with
    | nil => rw [hd] at hdlen; cases hdlen
    | cons c cs =>
        refine ⟨c, cs.take 175, by exact @List.take_succ_cons _ c cs 175, ?_⟩
        exact (hplain c (by rw [hd]; simp)).2.2.1
  obtain ⟨c, cs, hcs, hcq⟩ := htake
  have hdots : ("..." : String) = String.mk ['.', '.', '.'] := by decide
  have hstr : pyStrip (limited (pyAscii t))
      = String.mk (t.data.take 176 ++ "...".data) := by
    rw [hlim, hcs]
    have happ : String.mk ('\'' :: c :: cs) ++ "..."
        = String.mk ('\'' :: c :: ((cs ++ ['.', '.']) ++ ['.'])) := by
      rw [hdots]
      show String.mk (('\'' :: c :: cs) ++ ['.', '.', '.']) = _
      simp
    rw [happ, pyStrip_quoted c hcq (cs ++ ['.', '.'])]
    have : (c :: ((cs ++ ['.', '.']) ++ ['.'])) = (c :: cs) ++ "...".data := by
      simp
    rw [this]
  have hstrlen : (pyStrip (limited (pyAscii t))).length = 179 := by
    rw [hstr]
    show (t.data.take 176 ++ "...".data).length = 179
    simp [List.length_take, hdlen]
  exact ⟨hlim, hlimlen, by rw [renderedTitleHtml, hlim], hstr,
    hstrlen, by rw [renderedTitleMd, hstr]⟩

set_option maxRecDepth 4000 in
/-- Claim C9, witness: the amended statement evaluated at the
200-character title of letters a. -/
theorem claim_C9_witness :
    ((String.mk (List.replicate 200 'a')).length = 200 ∧
      ∀ c ∈ (String.mk (List.replicate 200 'a')).data, plainChar c) ∧
    (limited (pyAscii (String.mk (List.replicate 200 'a')))
        = String.mk
            ('\'' :: (String.mk (List.replicate 200 'a')).data.take 176) ++ "..." ∧
      (limited (pyAscii (String.mk (List.replicate 200 'a')))).length = 180 ∧
      renderedTitleHtml (String.mk (List.replicate 200 'a'))
        = htm_txt (String.mk
            ('\'' :: (String.mk (List.replicate 200 'a')).data.take 176) ++ "...") ∧
      pyStrip (limited (pyAscii (String.mk (List.replicate 200 'a'))))
        = String.mk
            ((String.mk (List.replicate 200 'a')).data.take 176 ++ "...".data) ∧
      (pyStrip (limited (pyAscii (String.mk (List.replicate 200 'a'))))).length = 179 ∧
      renderedTitleMd (String.mk (List.replicate 200 'a'))
        = htm_txt (String.mk
            ((String.mk (List.replicate 200 'a')).data.take 176 ++ "...".data))) :=
  ⟨⟨by decide, by decide⟩,
    claim_C9_amended (String.mk (List.replicate 200 'a')) (by decide) (by decide)⟩

end FirefoxBookmarkExport
